import Mathlib

/-!
Verification of the multiping core (src/c-impl/main.c) against its
natural-language specification.

The C program is shallowly embedded: C strings become `List Char`
(byte-for-byte, since all data here is ASCII), C `int` becomes `Int`,
the `float`/`double` loss computation becomes an exact dyadic-rational
model of IEEE-754 binary64/binary32 round-to-nearest-even arithmetic
(with the printf `%0.1f` correctly-rounded ties-to-even rendering), and
the mutex-serialized global queue becomes an explicit `QueueState`
threaded through the operations.  The external
extraction routines declared in extractor.h (extract_seq, extract_packets,
extract_stats — their implementation is not part of this repository's core
source) are abstracted as oracle parameters, so every theorem quantifies
over all possible extractor behaviours.
-/

namespace Multiping

/-! ### Constants (main.c lines 12-13) -/

/-- Constant `STRLEN = 256` (main.c line 12). -/
def STRLEN : Nat := 256

/-- Constant `QUEUELEN = 100` (main.c line 13). -/
def QUEUELEN : Nat := 100

/-! ### Strings and `strncpy`

C strings are byte lists.  `strncpy(dst, src, n)` with `dst` a fresh
`n`-byte buffer stores exactly the first `min n (length src)` bytes of
`src` into the buffer, i.e. the stored character data is `src.take n`. -/

/-- The character data deposited by `strncpy(dst, src, n)` into an `n`-byte
buffer: the first `n` bytes of `src`. -/
def strncpy (src : List Char) (n : Nat) : List Char := src.take n

/-! ### The shared queue (main.c lines 15-38) -/

/-- Struct `message_t` (main.c lines 15-18): a queue slot with two fixed
256-byte string buffers. -/
structure message_t where
  target : List Char
  content : List Char
deriving DecidableEq

/-- The mutable global state `message_queue`/`queue_pos` (main.c lines
27-28), represented by the live prefix `message_queue[0 .. queue_pos)`. -/
structure QueueState where
  queue : List message_t
deriving DecidableEq

/-- The state at program start: `queue_pos = 0`. -/
def initialState : QueueState := ⟨[]⟩

/-- Counter `queue_pos` (main.c line 28): the number of live entries. -/
def queue_pos (s : QueueState) : Nat := s.queue.length

/-- The entry stored by the two `strncpy` calls in `enqueue_message`
(main.c lines 34-35). -/
def stored_entry (target message : List Char) : message_t :=
  ⟨strncpy target STRLEN, strncpy message STRLEN⟩

/-- Function `enqueue_message` (main.c lines 30-38).  A call is `none` for the
`enqueue_message(NULL, NULL)` no-op marker (the `NULL == target` guard on
line 31 returns immediately), and `some (target, message)` for a call with
a real target string.  Under the mutex, if `queue_pos < QUEUELEN` the
entry is copied into the next slot and `queue_pos` is incremented;
otherwise the call is a silent no-op. -/
def enqueue_message (s : QueueState) : Option (List Char × List Char) → QueueState
  | none => s
  | some (t, m) =>
      if queue_pos s < QUEUELEN then ⟨s.queue ++ [stored_entry t m]⟩ else s

/-- A sequence of `enqueue_message` calls applied in order. -/
def apply_calls (s : QueueState) (calls : List (Option (List Char × List Char))) :
    QueueState :=
  calls.foldl enqueue_message s

/-- One pass of the `receive_and_print` loop body (main.c lines 42-46):
under the mutex, print `"%s: %s"` for each live entry and reset
`queue_pos` to 0.  Returns the printed lines and the new state. -/
def receive_and_print_once (s : QueueState) :
    List (List Char) × QueueState :=
  (s.queue.map (fun m => m.target ++ ": ".toList ++ m.content), initialState)

/-! ### Numeric formatting and IEEE-754 arithmetic

`sprintf` `%d` on an `int`, and the float pipeline of main.c line 59:
the loss is computed in IEEE-754 binary64 (each operation correctly
rounded to nearest, ties to even), stored into a binary32 `float` (one
more correct rounding), and rendered by printf `%0.1f`, which rounds the
(exactly dyadic-rational) float value to one decimal, again to nearest
with ties to even.  Everything is implemented over `Int`/`Nat` so each
concrete instance evaluates inside the kernel. -/

/-- Format `%d` of a C `int`. -/
def intStr (n : Int) : List Char := (toString n).toList

/-- Left-pad a digit string with zeros to a given width. -/
def padZeros (s : List Char) (len : Nat) : List Char :=
  List.replicate (len - s.length) '0' ++ s

/-- Round the quotient `a / b` of naturals to the nearest natural, ties
to even (the IEEE-754 default rounding used by C float arithmetic and by
a correctly-rounding printf). -/
def rndEvenDiv (a b : Nat) : Nat :=
  let f := a / b
  let r2 := 2 * (a % b)
  if r2 < b then f
  else if b < r2 then f + 1
  else if f % 2 = 0 then f else f + 1

/-- Fuel-driven bit length: number of binary digits of `m`.  The fuel
bounds the recursion depth; 256 covers every natural below `2^256`, far
above anything the 32-bit-int pipeline can produce. -/
def bitLenAux : Nat → Nat → Nat
  | 0, _ => 0
  | fuel + 1, m => if m = 0 then 0 else bitLenAux fuel (m / 2) + 1

/-- Bit length of a natural (valid for `n < 2^256`). -/
def bitLen (n : Nat) : Nat := bitLenAux 256 n

/-- Round the rational `num / den` to a `p`-significant-bit binary
floating-point value, to nearest with ties to even (unbounded exponent:
every value reachable from 32-bit ints in this program is a normal
number, so overflow/subnormal handling never engages).  The result is a
dyadic pair `(m, e)` denoting `m · 2^e`. -/
def roundPair (p : Nat) (num den : Int) : Int × Int :=
  let n : Int := if den < 0 then -num else num
  let b : Nat := den.natAbs
  let a : Nat := n.natAbs
  if a = 0 ∨ b = 0 then (0, 0)
  else
    let c : Int := (bitLen a : Int) - (bitLen b : Int)
    let E : Int :=
      if 0 ≤ c then (if b * 2 ^ c.toNat ≤ a then c else c - 1)
      else (if b ≤ a * 2 ^ (-c).toNat then c else c - 1)
    let t : Int := (p : Int) - 1 - E
    let m0 : Nat :=
      if 0 ≤ t then rndEvenDiv (a * 2 ^ t.toNat) b
      else rndEvenDiv a (b * 2 ^ (-t).toNat)
    let sgn : Int := if n < 0 then -1 else 1
    if m0 = 2 ^ p then (sgn * ((2 ^ (p - 1) : Nat) : Int), E - p + 2)
    else (sgn * (m0 : Int), E - p + 1)

/-- The exact value of a dyadic pair `(m, e)` as a numerator/positive
denominator pair of integers. -/
def dyadicNumDen (x : Int × Int) : Int × Int :=
  if 0 ≤ x.2 then (x.1 * 2 ^ x.2.toNat, 1) else (x.1, 2 ^ (-x.2).toNat)

/-- Render a dyadic value the way printf `%.digitsf` renders the
corresponding double: correctly rounded to `digits` decimals, ties to
even, sign taken from the value. -/
def fmtDyadic (x : Int × Int) (digits : Nat) : List Char :=
  let nd := dyadicNumDen x
  let scaled : Nat := rndEvenDiv (nd.1.natAbs * 10 ^ digits) nd.2.toNat
  let sign : List Char := if nd.1 < 0 then ['-'] else []
  let ip : Nat := scaled / 10 ^ digits
  let fp : Nat := scaled % 10 ^ digits
  if digits = 0 then sign ++ (toString ip).toList
  else sign ++ (toString ip).toList ++ ['.'] ++ padZeros (toString fp).toList digits

/-- Render a rational as printf `%.digitsf` renders a float whose exact
value it is: correctly rounded to `digits` decimals, ties to even.  Used
for the float fields the extractor oracles deliver (every actual C float
value is such a rational). -/
def fmtRat (q : ℚ) (digits : Nat) : List Char :=
  let scaled : Nat := rndEvenDiv (q.num.natAbs * 10 ^ digits) q.den
  let sign : List Char := if q.num < 0 then ['-'] else []
  let ip : Nat := scaled / 10 ^ digits
  let fp : Nat := scaled % 10 ^ digits
  if digits = 0 then sign ++ (toString ip).toList
  else sign ++ (toString ip).toList ++ ['.'] ++ padZeros (toString fp).toList digits

example : rndEvenDiv 3250 4 = 812 := by decide
example : rndEvenDiv 3270 4 = 818 := by decide

/-! ### The line classifier and message formatting (main.c lines 51-71)

`extract_seq`, `extract_packets` and `extract_stats` are declared in
extractor.h; their bodies are an external collaborator of the core.  Each
returns 0 on a pattern match and fills its out-parameters.  We abstract
the three of them as oracle functions (`some` of the extracted fields on
match, `none` otherwise) and quantify theorems over all oracles. -/

/-- The three extraction routines of extractor.h, abstracted.  A result
`some v` models a 0 (match) return with out-parameters `v`; `none` models
a non-zero (no match) return. -/
structure Extractors where
  extract_seq : List Char → Option (Int × ℚ)
  extract_packets : List Char → Option (Int × Int)
  extract_stats : List Char → Option (ℚ × ℚ × ℚ × ℚ)

/-- The tagged event a line is classified into (spec §3 PingEvent). -/
inductive PingEvent where
  | SequenceReply (seq : Int) (latency_ms : ℚ)
  | SummaryCounts (sent recv : Int)
  | SummaryStats (min avg max stdev : ℚ)
  | Unrecognized
deriving DecidableEq

/-- The classification performed by the branch structure of `ping_message`
(main.c lines 54-70): `extract_seq` is tested first (line 54), then
`extract_packets` (line 58), then `extract_stats` (line 64); the `else`
on line 69 yields the unrecognized case. -/
def classify (E : Extractors) (line : List Char) : PingEvent :=
  match E.extract_seq line with
  | some (s, t) => .SequenceReply s t
  | none =>
    match E.extract_packets line with
    | some (sent, recv) => .SummaryCounts sent recv
    | none =>
      match E.extract_stats line with
      | some (mn, av, mx, sd) => .SummaryStats mn av mx sd
      | none => .Unrecognized

/-- The string built by `sprintf(message, "seq %d time %.3f ms\n", seq, length)`
(main.c line 55). -/
def format_seq (seq : Int) (time : ℚ) : List Char :=
  "seq ".toList ++ intStr seq ++ " time ".toList ++ fmtRat time 3 ++ " ms\n".toList

/-- The value of `float loss = 100.0 - pingres->recv * 100.0 / pingres->sent`
(main.c line 59), as the exact dyadic value of the resulting `float`:
`recv` is converted to double and multiplied by 100.0 (exact, since
`|recv·100| < 2^53` for a 32-bit int), divided by `sent` in double
(one binary64 rounding), subtracted from 100.0 in double (one binary64
rounding of the exact dyadic difference), and stored into a `float`
(one binary32 rounding). -/
def lossFloat (sent recv : Int) : Int × Int :=
  let q := roundPair 53 (recv * 100) sent
  let qnd := dyadicNumDen q
  let diff := roundPair 53 (100 * qnd.2 - qnd.1) qnd.2
  let dnd := dyadicNumDen diff
  roundPair 24 dnd.1 dnd.2

/-- The string built by `sprintf` on main.c lines 60-61, with
`loss = 100.0 - recv * 100.0 / sent` computed in float arithmetic
(main.c line 59) and rendered by `%0.1f`. -/
def format_counts (sent recv : Int) : List Char :=
  "sent: ".toList ++ intStr sent ++ " received: ".toList ++ intStr recv ++
    " loss: ".toList ++ fmtDyadic (lossFloat sent recv) 1 ++ "%\n".toList

/-- The string built by `sprintf` on main.c lines 65-66. -/
def format_stats (mn av mx sd : ℚ) : List Char :=
  "min: ".toList ++ fmtRat mn 3 ++ " avg: ".toList ++ fmtRat av 3 ++
    " max: ".toList ++ fmtRat mx 3 ++ " stdev: ".toList ++ fmtRat sd 3 ++
    " (ms)\n".toList

/-- Function `ping_message` (main.c lines 51-71), as the list of `enqueue_message`
calls it performs for one input line, in order.  Note the `extract_seq`
branch (lines 54-57): it formats the sequence-reply string into the
buffer and then `return`s — it never calls `enqueue_message`, so it
contributes no call.  The summary branches enqueue the formatted message
under the task's target; the final `else` performs the
`enqueue_message(NULL, NULL)` no-op call (line 70), modelled as `none`. -/
def ping_message (E : Extractors) (target : List Char) (message : List Char) :
    List (Option (List Char × List Char)) :=
  match E.extract_seq message with
  | some _ => []
  | none =>
    match E.extract_packets message with
    | some (sent, recv) => [some (target, format_counts sent recv)]
    | none =>
      match E.extract_stats message with
      | some (mn, av, mx, sd) => [some (target, format_stats mn av mx sd)]
      | none => [none]

/-- The `enqueue_message` calls made by the `fgets` loop of `exec_ping`
(main.c lines 82-84) over the lines read from the pipe. -/
def process_lines (E : Extractors) (target : List Char)
    (lines : List (List Char)) : List (Option (List Char × List Char)) :=
  lines.flatMap (ping_message E target)

/-- Lemma: `ping_message` dispatches exactly along the classification. -/
theorem ping_message_eq_classify (E : Extractors) (target line : List Char) :
    ping_message E target line =
      match classify E line with
      | .SequenceReply _ _ => []
      | .SummaryCounts s r => [some (target, format_counts s r)]
      | .SummaryStats a b c d => [some (target, format_stats a b c d)]
      | .Unrecognized => [none] := by
  unfold ping_message classify
  cases hs : E.extract_seq line with
  | some v => rfl
  | none =>
    cases hp : E.extract_packets line with
    | some v => obtain ⟨s, r⟩ := v; rfl
    | none =>
      cases ht : E.extract_stats line with
      | some v => obtain ⟨a, b, c, d⟩ := v; rfl
      | none => rfl

/-! ### The probe worker (main.c lines 20-24 and 73-93) -/

/-- Struct `task_t` (main.c lines 20-24): the configuration handed to a worker. -/
structure task_t where
  target : List Char
  timeout : Int
  counts : Int
deriving DecidableEq

/-- The command string built by
`sprintf(cmd, "ping -c %d %s", task->counts, task->target)`
(main.c line 76). -/
def exec_ping_cmd (task : task_t) : List Char :=
  "ping -c ".toList ++ intStr task.counts ++ " ".toList ++ task.target

/-- The environment a worker runs in: `popen(cmd, "r")` either fails
(`none`, main.c line 87) or yields the lines read by the `fgets` loop
(main.c line 82). -/
structure Env where
  popen : List Char → Option (List (List Char))

/-- The error report `perror("Error openning pipe")` emits on the error
stream (main.c line 88). -/
def pipe_error_report : List Char := "Error openning pipe".toList

/-- Function `exec_ping` (main.c lines 73-93): the worker builds the command,
opens the pipe, and on success feeds every line through `ping_message`;
on failure it reports the error and makes no `enqueue_message` call.
Either way it frees its task, sleeps, and exits.  The result is the pair
(enqueue calls made, error reports made). -/
def exec_ping (E : Extractors) (env : Env) (task : task_t) :
    List (Option (List Char × List Char)) × List (List Char) :=
  match env.popen (exec_ping_cmd task) with
  | some lines => (process_lines E task.target lines, [])
  | none => ([], [pipe_error_report])

/-! ### The orchestrator (main.c lines 95-120)

`launch_workers` starts the printer, spawns one worker per target, joins
every worker in order, sleeps one second, cancels the printer, destroys
the mutex and returns 1.  We model its progress as a small-step state
machine over the spec's phases (Running with the workers still to join,
then Draining — the post-join grace second — then Terminated), carrying
the enqueue calls and error reports accumulated so far. -/

/-- An orchestrator configuration: the phase, the `enqueue_message` calls
made so far, and the error reports made so far. -/
structure Orch where
  pendingWork : Option (List task_t)
  drained : Bool
  calls : List (Option (List Char × List Char))
  errors : List (List Char)
deriving DecidableEq

/-- The phase names of spec §4.5. -/
inductive OrchPhase where
  | Running
  | Draining
  | Terminated
deriving DecidableEq

/-- The phase of a configuration: `Running` while workers remain to be
joined, `Draining` during the grace second after the join loop
(main.c line 116), `Terminated` after the printer is cancelled and the
mutex destroyed (main.c lines 117-118). -/
def Orch.phase (o : Orch) : OrchPhase :=
  match o.pendingWork with
  | some _ => .Running
  | none => if o.drained then .Terminated else .Draining

/-- The initial configuration: all workers spawned, none joined yet. -/
def orchStart (tasks : List task_t) : Orch :=
  ⟨some tasks, false, [], []⟩

/-- One step of `launch_workers`: join the next worker (accumulating the
calls and reports its `exec_ping` made), or — when every worker has been
joined — take the `sleep(1)` grace step and then the
cancel-printer/destroy-mutex step. -/
inductive OrchStep (E : Extractors) (env : Env) : Orch → Orch → Prop
  | join (t : task_t) (ts : List task_t) (d : Bool)
      (calls : List (Option (List Char × List Char))) (errors : List (List Char)) :
      OrchStep E env ⟨some (t :: ts), d, calls, errors⟩
        ⟨some ts, d, calls ++ (exec_ping E env t).1, errors ++ (exec_ping E env t).2⟩
  | drain (calls : List (Option (List Char × List Char))) (errors : List (List Char)) :
      OrchStep E env ⟨some [], false, calls, errors⟩ ⟨none, false, calls, errors⟩
  | finish (calls : List (Option (List Char × List Char))) (errors : List (List Char)) :
      OrchStep E env ⟨none, false, calls, errors⟩ ⟨none, true, calls, errors⟩

/-- All enqueue calls of a full run, worker by worker in join order. -/
def all_calls (E : Extractors) (env : Env) (tasks : List task_t) :
    List (Option (List Char × List Char)) :=
  tasks.flatMap (fun t => (exec_ping E env t).1)

/-- All error reports of a full run. -/
def all_errors (E : Extractors) (env : Env) (tasks : List task_t) :
    List (List Char) :=
  tasks.flatMap (fun t => (exec_ping E env t).2)

/-- Whether a task's `popen` fails in the given environment. -/
def spawn_fails (env : Env) (task : task_t) : Bool :=
  (env.popen (exec_ping_cmd task)).isNone

/-! ### `main` (main.c lines 122-158) -/

/-- Modelled from the spec: `new_string_vector` is declared in strvec.h,
whose implementation is not under src/.  Per spec §4.5 (`Idle→Running`:
"parse target list") and main.c line 154, it splits the comma-separated
`--targets` argument into the target tokens (delimiter-separated
substrings, so a list of `k` delimiters yields `k+1` tokens). -/
def new_string_vector (s : List Char) (delim : Char) : List (List Char) :=
  match s with
  | [] => [[]]
  | c :: rest =>
      let tokens := new_string_vector rest delim
      if c = delim then [] :: tokens
      else
        match tokens with
        | [] => [[c]]
        | t :: ts => (c :: t) :: ts

/-- C `!` on an `int` return value (main.c line 157). -/
def cBoolNot (n : Int) : Int := if n = 0 then 1 else 0

/-- The value `launch_workers` returns: 1, unconditionally
(main.c line 119). -/
def launch_workers_ret : Int := 1

/-- The process exit status of `main` (main.c lines 122-158) as a
function of whether `--targets` was given and of the run's environment:
a missing `--targets` exits with `EXIT_FAILURE` (lines 150-153);
otherwise the target string is tokenized and the exit status is
`!launch_workers(...)`. -/
def main_exit (E : Extractors) (env : Env) (targets : Option (List Char))
    (counts timeout : Int) : Int :=
  match targets with
  | none => 1
  | some ts =>
      let tokens := new_string_vector ts ','
      let tasks := tokens.map (fun tok => task_t.mk tok timeout counts)
      let _ := all_calls E env tasks
      cBoolNot launch_workers_ret

/-! ### Helper lemmas about the queue -/

theorem apply_calls_nil (s : QueueState) : apply_calls s [] = s := rfl

theorem apply_calls_cons (s : QueueState) (c : Option (List Char × List Char))
    (cs : List (Option (List Char × List Char))) :
    apply_calls s (c :: cs) = apply_calls (enqueue_message s c) cs := rfl

theorem apply_calls_append (s : QueueState)
    (cs ds : List (Option (List Char × List Char))) :
    apply_calls s (cs ++ ds) = apply_calls (apply_calls s cs) ds := by
  simp [apply_calls, List.foldl_append]

theorem enqueue_message_lt (s : QueueState) (t m : List Char)
    (h : queue_pos s < QUEUELEN) :
    enqueue_message s (some (t, m)) = ⟨s.queue ++ [stored_entry t m]⟩ := by
  simp [enqueue_message, h]

theorem enqueue_message_full (s : QueueState) (t m : List Char)
    (h : ¬queue_pos s < QUEUELEN) :
    enqueue_message s (some (t, m)) = s := by
  simp [enqueue_message, h]

/-- Enqueueing entries (all with a real target) into a not-overfull queue
keeps the old contents and appends the stored forms of as many of the new
entries as fit, in order. -/
theorem apply_some_calls_queue (entries : List (List Char × List Char))
    (s : QueueState) (h : queue_pos s ≤ QUEUELEN) :
    (apply_calls s (entries.map some)).queue =
      s.queue ++
        ((entries.take (QUEUELEN - queue_pos s)).map
          (fun p => stored_entry p.1 p.2)) := by
  induction entries generalizing s with
  | nil => simp [apply_calls]
  | cons e rest ih =>
    obtain ⟨t, m⟩ := e
    by_cases hlt : queue_pos s < QUEUELEN
    · have hstep := enqueue_message_lt s t m hlt
      have hq : queue_pos (⟨s.queue ++ [stored_entry t m]⟩ : QueueState) =
          queue_pos s + 1 := by simp [queue_pos]
      have hle : queue_pos (⟨s.queue ++ [stored_entry t m]⟩ : QueueState) ≤ QUEUELEN := by
        rw [hq]; exact hlt
      have := ih ⟨s.queue ++ [stored_entry t m]⟩ hle
      rw [List.map_cons, apply_calls_cons, hstep, this, hq]
      have hsub : QUEUELEN - queue_pos s = (QUEUELEN - (queue_pos s + 1)) + 1 := by
        omega
      rw [hsub, List.take_succ_cons, List.map_cons]
      simp
    · have hfull : queue_pos s = QUEUELEN := by omega
      rw [List.map_cons, apply_calls_cons, enqueue_message_full s t m hlt]
      have := ih s h
      rw [this, hfull]
      simp

/-- Queue membership after a call sequence: every entry either was there
before or is the stored form of some real-target call in the sequence. -/
theorem apply_calls_mem (calls : List (Option (List Char × List Char)))
    (s : QueueState) (m : message_t) (hm : m ∈ (apply_calls s calls).queue) :
    m ∈ s.queue ∨ ∃ t c, some (t, c) ∈ calls ∧ m = stored_entry t c := by
  induction calls generalizing s with
  | nil => left; simpa [apply_calls] using hm
  | cons hd rest ih =>
    rw [apply_calls_cons] at hm
    rcases ih (enqueue_message s hd) hm with hin | ⟨t, c, hc, he⟩
    · cases hd with
      | none => left; exact hin
      | some p =>
        obtain ⟨t, c⟩ := p
        by_cases hlt : queue_pos s < QUEUELEN
        · rw [enqueue_message_lt s t c hlt] at hin
          rcases List.mem_append.mp hin with h | h
          · left; exact h
          · right
            refine ⟨t, c, List.mem_cons_self _ _, ?_⟩
            simpa using h
        · left
          rw [enqueue_message_full s t c hlt] at hin
          exact hin
    · right; exact ⟨t, c, List.mem_cons_of_mem _ hc, he⟩

/-- A sequence consisting only of no-op marker calls leaves the queue
unchanged. -/
theorem apply_none_calls (calls : List (Option (List Char × List Char)))
    (s : QueueState) (h : ∀ c ∈ calls, c = none) : apply_calls s calls = s := by
  induction calls generalizing s with
  | nil => rfl
  | cons hd rest ih =>
    have hhd : hd = none := h hd (List.mem_cons_self _ _)
    rw [apply_calls_cons, hhd]
    exact ih s (fun c hc => h c (List.mem_cons_of_mem _ hc))

/-! ### Claim C4 -/

/-- C4: enqueueing C+1 entries into an initially empty queue of capacity
C = QUEUELEN leaves exactly the first C entries present (in their stored,
truncated form), in enqueue order, and the (C+1)-th enqueue is a silent
no-op that leaves the queue state unchanged. -/
theorem C4_capacity_first_C (es : List (List Char × List Char))
    (e : List Char × List Char) (h : es.length = QUEUELEN) :
    (apply_calls initialState ((es ++ [e]).map some)).queue =
        es.map (fun p => stored_entry p.1 p.2) ∧
      enqueue_message (apply_calls initialState (es.map some)) (some e) =
        apply_calls initialState (es.map some) := by
  have hfirst : (apply_calls initialState (es.map some)).queue =
      es.map (fun p => stored_entry p.1 p.2) := by
    have := apply_some_calls_queue es initialState (by decide)
    simpa [initialState, queue_pos, h, List.take_of_length_le] using this
  have hpos : queue_pos (apply_calls initialState (es.map some)) = QUEUELEN := by
    simp [queue_pos, hfirst, h]
  have hnoop : enqueue_message (apply_calls initialState (es.map some)) (some e) =
      apply_calls initialState (es.map some) := by
    obtain ⟨t, m⟩ := e
    exact enqueue_message_full _ t m (by omega)
  refine ⟨?_, hnoop⟩
  have hsplit : apply_calls initialState ((es ++ [e]).map some) =
      enqueue_message (apply_calls initialState (es.map some)) (some e) := by
    rw [List.map_append, apply_calls_append]; rfl
  rw [hsplit, hnoop]
  exact hfirst

/-- Concrete entry list of length QUEUELEN for the C4 witness. -/
def es100 : List (List Char × List Char) := List.replicate QUEUELEN (['a'], ['b'])

theorem C4_capacity_first_C_witness :
    es100.length = QUEUELEN ∧
      ((apply_calls initialState ((es100 ++ [(['c'], ['d'])]).map some)).queue =
          es100.map (fun p => stored_entry p.1 p.2) ∧
        enqueue_message (apply_calls initialState (es100.map some))
            (some (['c'], ['d'])) =
          apply_calls initialState (es100.map some)) :=
  ⟨by decide, C4_capacity_first_C es100 (['c'], ['d']) (by decide)⟩

/-! ### Claim C5 -/

/-- One atomic mutator of the shared queue: an `enqueue_message` call
(from any worker, with any argument) or one drain pass of the printer.
The mutex (main.c lines 32, 37, 42, 46) serializes these, so an
interleaved execution is a sequence of such steps. -/
inductive QStep : QueueState → QueueState → Prop
  | enq (s : QueueState) (c : Option (List Char × List Char)) :
      QStep s (enqueue_message s c)
  | drain (s : QueueState) : QStep s (receive_and_print_once s).2

theorem qstep_preserves (s s' : QueueState) (h : queue_pos s ≤ QUEUELEN)
    (hs : QStep s s') : queue_pos s' ≤ QUEUELEN := by
  cases hs with
  | enq c =>
    cases c with
    | none => exact h
    | some p =>
      obtain ⟨t, m⟩ := p
      by_cases hlt : queue_pos s < QUEUELEN
      · rw [enqueue_message_lt s t m hlt]
        simp only [queue_pos, List.length_append, List.length_cons,
          List.length_nil] at hlt ⊢
        omega
      · rw [enqueue_message_full s t m hlt]; exact h
  | drain => exact Nat.zero_le _

/-- C5: `0 ≤ length ≤ C` is an invariant of the shared queue: it is
preserved by every single step (any enqueue, any drain), hence along
every interleaving of steps, and a drain resets the length to zero.
(`queue_pos` is a `Nat` in the model, so `0 ≤ length` is intrinsic.) -/
theorem C5_queue_invariant :
    (∀ s s', queue_pos s ≤ QUEUELEN → QStep s s' → queue_pos s' ≤ QUEUELEN) ∧
      (∀ s s', queue_pos s ≤ QUEUELEN → Relation.ReflTransGen QStep s s' →
        queue_pos s' ≤ QUEUELEN) ∧
      (∀ s, queue_pos (receive_and_print_once s).2 = 0) := by
  refine ⟨fun s s' h hs => qstep_preserves s s' h hs, ?_, fun s => rfl⟩
  intro s s' h htr
  induction htr with
  | refl => exact h
  | tail _ hstep ih => exact qstep_preserves _ _ ih hstep

theorem C5_queue_invariant_witness :
    queue_pos initialState ≤ QUEUELEN ∧
      queue_pos (enqueue_message initialState (some (['a'], ['b']))) ≤ QUEUELEN :=
  ⟨by decide,
    C5_queue_invariant.2.1 initialState
      (enqueue_message initialState (some (['a'], ['b']))) (by decide)
      (Relation.ReflTransGen.single
        (QStep.enq initialState (some (['a'], ['b']))))⟩

/-! ### Claim C10 -/

/-- C10: a stored queue entry holds at most the first `STRLEN = 256`
bytes of the given target and content strings: when the queue is not
full, the enqueue appends exactly one entry (long strings are not
rejected), and that entry's fields are the 256-byte truncations, so their
lengths never exceed 256. -/
theorem C10_truncation (s : QueueState) (t m : List Char)
    (h : queue_pos s < QUEUELEN) :
    enqueue_message s (some (t, m)) = ⟨s.queue ++ [stored_entry t m]⟩ ∧
      (stored_entry t m).target = t.take STRLEN ∧
      (stored_entry t m).content = m.take STRLEN ∧
      (stored_entry t m).target.length ≤ STRLEN ∧
      (stored_entry t m).content.length ≤ STRLEN := by
  refine ⟨enqueue_message_lt s t m h, rfl, rfl, ?_, ?_⟩ <;>
    simp [stored_entry, strncpy]

/-- A 300-byte target string, longer than the 256-byte buffer. -/
def longTarget : List Char := List.replicate 300 'a'

theorem C10_truncation_witness :
    queue_pos initialState < QUEUELEN ∧
      (enqueue_message initialState (some (longTarget, ['m'])) =
          ⟨initialState.queue ++ [stored_entry longTarget ['m']]⟩ ∧
        (stored_entry longTarget ['m']).target = longTarget.take STRLEN ∧
        (stored_entry longTarget ['m']).content = (['m'] : List Char).take STRLEN ∧
        (stored_entry longTarget ['m']).target.length ≤ STRLEN ∧
        (stored_entry longTarget ['m']).content.length ≤ STRLEN) :=
  ⟨by decide, C10_truncation initialState longTarget ['m'] (by decide)⟩

/-! ### Claim C6 -/

/-- C6: the line classifier is total and deterministic with the fixed
priority order of main.c lines 54-70: a line matching the sequence-reply
extractor is classified as its `SequenceReply` regardless of the other
patterns; `SummaryCounts` requires the sequence pattern to have failed;
`SummaryStats` requires both earlier patterns to have failed; a line
matching none of the three yields `Unrecognized`; and every line maps to
exactly one of the four variants (the classifier is a total Lean
function, so it never fails). -/
theorem C6_classifier_total_priority (E : Extractors) (line : List Char) :
    (∀ s t, E.extract_seq line = some (s, t) →
        classify E line = .SequenceReply s t) ∧
      (∀ s r, E.extract_seq line = none → E.extract_packets line = some (s, r) →
        classify E line = .SummaryCounts s r) ∧
      (∀ a b c d, E.extract_seq line = none → E.extract_packets line = none →
        E.extract_stats line = some (a, b, c, d) →
        classify E line = .SummaryStats a b c d) ∧
      (E.extract_seq line = none → E.extract_packets line = none →
        E.extract_stats line = none → classify E line = .Unrecognized) ∧
      ((∃ s t, classify E line = .SequenceReply s t) ∨
        (∃ s r, classify E line = .SummaryCounts s r) ∨
        (∃ a b c d, classify E line = .SummaryStats a b c d) ∨
        classify E line = .Unrecognized) := by
  refine ⟨?_, ?_, ?_, ?_, ?_⟩
  · intro s t h1
    simp [classify, h1]
  · intro s r h1 h2
    simp [classify, h1, h2]
  · intro a b c d h1 h2 h3
    simp [classify, h1, h2, h3]
  · intro h1 h2 h3
    simp [classify, h1, h2, h3]
  · unfold classify
    cases E.extract_seq line with
    | some v =>
      obtain ⟨s, t⟩ := v
      exact Or.inl ⟨s, t, rfl⟩
    | none =>
      cases E.extract_packets line with
      | some v =>
        obtain ⟨s, r⟩ := v
        exact Or.inr (Or.inl ⟨s, r, rfl⟩)
      | none =>
        cases E.extract_stats line with
        | some v =>
          obtain ⟨a, b, c, d⟩ := v
          exact Or.inr (Or.inr (Or.inl ⟨a, b, c, d, rfl⟩))
        | none => exact Or.inr (Or.inr (Or.inr rfl))

/-- A concrete sequence-reply line (external ping output format). -/
def seqLineA : List Char :=
  "64 bytes from 8.8.8.8: icmp_seq=1 ttl=57 time=10.5 ms\n".toList

/-- A concrete extractor oracle that recognizes `seqLineA` as a sequence
reply with seq 1 and latency 21/2 ms, and nothing else. -/
def E6 : Extractors :=
  ⟨fun l => if l = seqLineA then some (1, 21 / 2) else none,
   fun _ => none, fun _ => none⟩

theorem C6_classifier_total_priority_witness :
    classify E6 seqLineA = .SequenceReply 1 (21 / 2) :=
  (C6_classifier_total_priority E6 seqLineA).1 1 (21 / 2) (by simp [E6])

/-! ### Claim C7 -/

set_option maxRecDepth 8192 in
/-- C7: a summary-counts line (one the sequence pattern does not match,
matching the code's priority) with `sent = s > 0` and `received = r`
(both in 32-bit int range, as delivered by the `%d` extraction) is
published as the single message `"sent: <s> received: <r> loss: <p>%"`
where `p` is the printf `%0.1f` rendering of
`loss = 100.0 - r·100.0/s` computed in the program's float arithmetic;
in particular for `sent = 10`, `received = 8` the computation is exact
and the message reads `loss: 20.0%` (and at the tie case `sent = 16`,
`received = 3`, where the float value is exactly 81.25, the
ties-to-even rendering reads `loss: 81.2%`). -/
theorem C7_loss_formula (E : Extractors) (tgt line : List Char) (s r : Int)
    (h1 : E.extract_seq line = none) (h2 : E.extract_packets line = some (s, r))
    (h3 : 0 < s) (h4 : s ≤ 2 ^ 31) (h5 : r.natAbs ≤ 2 ^ 31) :
    ping_message E tgt line =
        [some (tgt,
          "sent: ".toList ++ intStr s ++ " received: ".toList ++ intStr r ++
            " loss: ".toList ++ fmtDyadic (lossFloat s r) 1 ++ "%\n".toList)] ∧
      format_counts 10 8 = "sent: 10 received: 8 loss: 20.0%\n".toList ∧
      format_counts 16 3 = "sent: 16 received: 3 loss: 81.2%\n".toList := by
  refine ⟨?_, by decide, by decide⟩
  unfold ping_message
  rw [h1, h2]
  rfl

/-- A concrete summary-counts line (external ping output format). -/
def countsLine7 : List Char :=
  "10 packets transmitted, 8 received, 20% packet loss, time 9012ms\n".toList

/-- A concrete extractor oracle that recognizes `countsLine7` as a
summary-counts line with sent 10 and received 8, and nothing else. -/
def E7 : Extractors :=
  ⟨fun _ => none,
   fun l => if l = countsLine7 then some (10, 8) else none,
   fun _ => none⟩

set_option maxRecDepth 8192 in
theorem C7_loss_formula_witness :
    E7.extract_seq countsLine7 = none ∧
      E7.extract_packets countsLine7 = some (10, 8) ∧
      (0 : Int) < 10 ∧ (10 : Int) ≤ 2 ^ 31 ∧ (8 : Int).natAbs ≤ 2 ^ 31 ∧
      (ping_message E7 "8.8.4.4".toList countsLine7 =
          [some ("8.8.4.4".toList,
            "sent: ".toList ++ intStr 10 ++ " received: ".toList ++ intStr 8 ++
              " loss: ".toList ++ fmtDyadic (lossFloat 10 8) 1 ++ "%\n".toList)] ∧
        format_counts 10 8 = "sent: 10 received: 8 loss: 20.0%\n".toList ∧
        format_counts 16 3 = "sent: 16 received: 3 loss: 81.2%\n".toList) :=
  ⟨rfl, by simp [E7], by decide, by decide, by decide,
    C7_loss_formula E7 "8.8.4.4".toList countsLine7 10 8 rfl (by simp [E7])
      (by decide) (by decide) (by decide)⟩

/-! ### Claim C1 -/

/-- The probe target used in the C1 evaluation. -/
def targetA : List Char := "8.8.8.8".toList

/-- Three concrete sequence-reply lines emitted by target A's process. -/
def seqLine1 : List Char :=
  "64 bytes from 8.8.8.8: icmp_seq=1 ttl=57 time=10.5 ms\n".toList

def seqLine2 : List Char :=
  "64 bytes from 8.8.8.8: icmp_seq=2 ttl=57 time=11.5 ms\n".toList

def seqLine3 : List Char :=
  "64 bytes from 8.8.8.8: icmp_seq=3 ttl=57 time=12.5 ms\n".toList

/-- The summary-counts line closing target A's probe round. -/
def countsLineA : List Char :=
  "10 packets transmitted, 8 received, 20% packet loss, time 9012ms\n".toList

/-- Extractor oracle for the C1 run: the three sequence-reply lines match
the sequence pattern, the summary line matches the packets pattern. -/
def E1 : Extractors :=
  ⟨fun l =>
      if l = seqLine1 then some (1, 21 / 2)
      else if l = seqLine2 then some (2, 23 / 2)
      else if l = seqLine3 then some (3, 25 / 2)
      else none,
   fun l => if l = countsLineA then some (10, 8) else none,
   fun _ => none⟩

/-- C1: evaluation of the code at the claim's scenario.  The claim says a
sequence-reply line is formatted as `"seq <n> time <t> ms"` and enqueued,
so 3 sequence-reply lines plus 1 summary line yield 4 published lines.
The code's `extract_seq` branch (main.c lines 54-57) formats the string
into the buffer and then `return`s without calling `enqueue_message`, so
a recognized sequence-reply line produces no enqueue call at all, and the
4-line process output publishes exactly 1 message (the summary), not 4. -/
theorem C1_seq_replies_never_enqueued :
    E1.extract_seq seqLine1 = some (1, 21 / 2) ∧
      ping_message E1 targetA seqLine1 = [] ∧
      process_lines E1 targetA [seqLine1, seqLine2, seqLine3, countsLineA] =
        [some (targetA, format_counts 10 8)] ∧
      (process_lines E1 targetA
          [seqLine1, seqLine2, seqLine3, countsLineA]).length = 1 :=
  ⟨rfl, rfl, rfl, rfl⟩

/-! ### Claim C3 -/

/-- Whether `pat` occurs as a contiguous run inside `l`. -/
def occursIn (pat : List Char) : List Char → Bool
  | [] => pat.isEmpty
  | c :: rest => pat.isPrefixOf (c :: rest) || occursIn pat rest

/-- C3 counterexample: for the task with target `example.com`,
timeout 9999 and repeat-count 10, the command the worker constructs is
`ping -c 10 example.com` — the timeout value appears nowhere in it, and
the constructed command is identical to the one for timeout 1000.  So the
timeout is not "passed through as a parameter of the external process's
invocation". -/
theorem C3_counterexample :
    exec_ping_cmd ⟨"example.com".toList, 9999, 10⟩ =
        "ping -c 10 example.com".toList ∧
      occursIn "9999".toList
          (exec_ping_cmd ⟨"example.com".toList, 9999, 10⟩) = false ∧
      exec_ping_cmd ⟨"example.com".toList, 9999, 10⟩ =
        exec_ping_cmd ⟨"example.com".toList, 1000, 10⟩ :=
  ⟨by decide, by decide, by decide⟩

/-- C3 amended: the configured timeout is carried as a field of the
ProbeTask but does not appear in the invocation the worker constructs —
the argument list is built from the repeat-count and the target only —
and the timeout is not otherwise interpreted by the core: the worker's
entire behaviour (command, enqueue calls, error reports) is identical for
any two timeout values. -/
theorem C3_amended_timeout_unused (E : Extractors) (env : Env)
    (tgt : List Char) (counts to1 to2 : Int) :
    exec_ping_cmd ⟨tgt, to1, counts⟩ = exec_ping_cmd ⟨tgt, to2, counts⟩ ∧
      exec_ping E env ⟨tgt, to1, counts⟩ = exec_ping E env ⟨tgt, to2, counts⟩ ∧
      exec_ping_cmd ⟨tgt, to1, counts⟩ =
        "ping -c ".toList ++ intStr counts ++ " ".toList ++ tgt :=
  ⟨rfl, rfl, rfl⟩

/-! ### Claim C9 -/

/-- C9: no queue entry without a target is ever printed.  For every
sequence of enqueue calls applied to the initially empty queue, every
line the printer's drain pass outputs is the (stored) target of some
real-target enqueue call, followed by `": "` and that entry's content;
and a call sequence consisting only of no-op markers (as produced for
unrecognized lines) yields no output at all — the drain pass is a total
function, so it cannot crash on markers. -/
theorem C9_no_none_printed (calls : List (Option (List Char × List Char))) :
    (∀ line ∈ (receive_and_print_once (apply_calls initialState calls)).1,
        ∃ t c, some (t, c) ∈ calls ∧
          line = (stored_entry t c).target ++ ": ".toList ++
            (stored_entry t c).content) ∧
      ((∀ c ∈ calls, c = none) →
        (receive_and_print_once (apply_calls initialState calls)).1 = []) := by
  constructor
  · intro line hline
    simp only [receive_and_print_once, List.mem_map] at hline
    obtain ⟨m, hm, hl⟩ := hline
    rcases apply_calls_mem calls initialState m hm with hin | ⟨t, c, hc, he⟩
    · simp [initialState] at hin
    · exact ⟨t, c, hc, by rw [← hl, he]⟩
  · intro hall
    rw [apply_none_calls calls initialState hall]
    rfl

/-- A call sequence with one no-op marker and one real entry. -/
def calls9 : List (Option (List Char × List Char)) := [none, some (['a'], ['b'])]

theorem C9_no_none_printed_witness :
    ∃ t c, some (t, c) ∈ calls9 ∧
      (['a', ':', ' ', 'b'] : List Char) =
        (stored_entry t c).target ++ ": ".toList ++ (stored_entry t c).content :=
  (C9_no_none_printed calls9).1 ['a', ':', ' ', 'b'] (by decide)

/-! ### Claim C2 -/

theorem all_calls_nil (E : Extractors) (env : Env) : all_calls E env [] = [] := rfl

theorem all_errors_nil (E : Extractors) (env : Env) : all_errors E env [] = [] := rfl

theorem all_calls_cons (E : Extractors) (env : Env) (t : task_t)
    (ts : List task_t) :
    all_calls E env (t :: ts) = (exec_ping E env t).1 ++ all_calls E env ts := by
  simp [all_calls]

theorem all_errors_cons (E : Extractors) (env : Env) (t : task_t)
    (ts : List task_t) :
    all_errors E env (t :: ts) = (exec_ping E env t).2 ++ all_errors E env ts := by
  simp [all_errors]

/-- The join loop: from a Running configuration with `tasks` still to
join, the orchestrator steps to the configuration where all of them have
been joined, accumulating every worker's calls and reports. -/
theorem orch_join_run (E : Extractors) (env : Env) (tasks : List task_t)
    (calls : List (Option (List Char × List Char))) (errors : List (List Char)) :
    Relation.ReflTransGen (OrchStep E env) ⟨some tasks, false, calls, errors⟩
      ⟨some [], false, calls ++ all_calls E env tasks,
        errors ++ all_errors E env tasks⟩ := by
  induction tasks generalizing calls errors with
  | nil =>
    simpa [all_calls_nil, all_errors_nil] using
      (Relation.ReflTransGen.refl :
        Relation.ReflTransGen (OrchStep E env) ⟨some [], false, calls, errors⟩
          ⟨some [], false, calls, errors⟩)
  | cons t ts ih =>
    refine Relation.ReflTransGen.head (OrchStep.join t ts false calls errors) ?_
    have := ih (calls ++ (exec_ping E env t).1) (errors ++ (exec_ping E env t).2)
    simpa [all_calls_cons, all_errors_cons, List.append_assoc] using this

/-- Per-run error reports are exactly one pipe-error report per worker
whose spawn failed. -/
theorem all_errors_eq_failed (E : Extractors) (env : Env) (tasks : List task_t) :
    all_errors E env tasks =
      (tasks.filter (fun t => spawn_fails env t)).map
        (fun _ => pipe_error_report) := by
  induction tasks with
  | nil => rfl
  | cons t ts ih =>
    rw [all_errors_cons]
    cases hp : env.popen (exec_ping_cmd t) with
    | none => simp [exec_ping, hp, spawn_fails, ih]
    | some lines => simp [exec_ping, hp, spawn_fails, ih]

/-- C2: for every target list and every environment — in particular for
every subset of workers whose external process fails to spawn — the
orchestrator run is never aborted: from the Running start it always
reaches a `Terminated` configuration whose accumulated calls are the
full, in-order concatenation of every worker's output (so the workers
that did spawn ran to completion), and whose error stream carries exactly
one spawn-error report per failed worker. -/
theorem C2_partial_failure_still_terminates (E : Extractors) (env : Env)
    (tasks : List task_t) :
    Relation.ReflTransGen (OrchStep E env) (orchStart tasks)
        ⟨none, true, all_calls E env tasks, all_errors E env tasks⟩ ∧
      (⟨none, true, all_calls E env tasks, all_errors E env tasks⟩ : Orch).phase =
        .Terminated ∧
      all_calls E env tasks = tasks.flatMap (fun t => (exec_ping E env t).1) ∧
      all_errors E env tasks =
        (tasks.filter (fun t => spawn_fails env t)).map
          (fun _ => pipe_error_report) := by
  refine ⟨?_, rfl, rfl, all_errors_eq_failed E env tasks⟩
  have hjoin := orch_join_run E env tasks [] []
  simp only [List.nil_append] at hjoin
  exact Relation.ReflTransGen.trans hjoin
    (Relation.ReflTransGen.head
      (OrchStep.drain (all_calls E env tasks) (all_errors E env tasks))
      (Relation.ReflTransGen.single
        (OrchStep.finish (all_calls E env tasks) (all_errors E env tasks))))

/-! ### Claim C8 -/

/-- The target-list tokenizer always produces at least one token. -/
theorem new_string_vector_length_pos (s : List Char) (d : Char) :
    1 ≤ (new_string_vector s d).length := by
  induction s with
  | nil => simp [new_string_vector]
  | cons c rest ih =>
    rw [new_string_vector.eq_def]
    by_cases h : c = d
    · simp [h]
    · cases htok : new_string_vector rest d with
      | nil => simp [h, htok]
      | cons t ts => simp [h, htok]

/-- C8: `main`'s exit status is 0 exactly when `--targets` was provided
(a provided list always tokenizes to at least one target, so "provided,
non-empty and parsable" reduces to "provided"), and the status is
unchanged by anything that happens to the workers: it is the same for
every extractor behaviour, every environment (hence every set of spawn
failures, which are only reported on the error stream), and every
counts/timeout value. -/
theorem C8_exit_status (E E' : Extractors) (env env' : Env)
    (targets : Option (List Char)) (counts counts' timeout timeout' : Int) :
    main_exit E env targets counts timeout =
        (if targets.isSome then 0 else 1) ∧
      (main_exit E env targets counts timeout = 0 ↔
        ∃ ts, targets = some ts ∧ 1 ≤ (new_string_vector ts ',').length) ∧
      main_exit E env targets counts timeout =
        main_exit E' env' targets counts' timeout' := by
  cases targets with
  | none =>
    refine ⟨rfl, ?_, rfl⟩
    simp [main_exit]
  | some ts =>
    refine ⟨rfl, ?_, rfl⟩
    constructor
    · intro _
      exact ⟨ts, rfl, new_string_vector_length_pos ts ','⟩
    · intro _
      rfl

/-- The environment in which every spawn fails. -/
def envAllFail : Env := ⟨fun _ => none⟩

/-- An extractor oracle that recognizes nothing. -/
def Enone : Extractors := ⟨fun _ => none, fun _ => none, fun _ => none⟩

theorem C8_exit_status_witness :
    main_exit Enone envAllFail (some "a,b".toList) 10 1000 = 0 :=
  (C8_exit_status Enone Enone envAllFail envAllFail (some "a,b".toList)
      10 10 1000 1000).2.1.mpr ⟨"a,b".toList, rfl, by decide⟩

end Multiping
